import Mathlib

/-!
# Verification of the drupal-rust content/comment core

Shallow embedding of the revisioning, dynamic-field and comment-thread
engine of the repository (`src/models/comment.rs`, `src/models/node.rs`,
`src/models/node_field.rs`, `src/handlers/comment.rs`).

Database tables are modelled as Lean lists of row structures; each SQL
statement of the source is translated to the corresponding pure list
operation.  Machine integers (`u32`, `i64`, `i32`) are modelled as
`Nat`/`Int`, with an explicit `% 2^32` where the source's wrapping
arithmetic matters (`vancode_to_int` accumulates in a `u32`).
The injected clock (`chrono::Utc::now().timestamp()`) is passed as an
explicit `now` argument.
-/

namespace DrupalRust

/-! ## Vancode codec (`src/models/comment.rs`, `int_to_vancode` / `vancode_to_int`) -/

/-- Base-36 digit character: `0-9` then `a-z`
(`if digit < 10 { b'0' + digit } else { b'a' + digit - 10 }`). -/
def digitChar (d : Nat) : Char :=
  if d < 10 then Char.ofNat ('0'.toNat + d) else Char.ofNat ('a'.toNat + d - 10)

/-- The digit-accumulation loop of `int_to_vancode`
(`result.insert(0, c); n /= 36` while `n > 0`), written with explicit fuel
so that the recursion is structural; `n` itself is enough fuel because
`n / 36 < n` for positive `n`. -/
def toVanAuxFuel : Nat → Nat → List Char
  | 0, _ => []
  | fuel + 1, n =>
    if n = 0 then [] else toVanAuxFuel fuel (n / 36) ++ [digitChar (n % 36)]

/-- Unpadded base-36 digit list of `n` (empty for `n = 0`). -/
def toVanAux (n : Nat) : List Char :=
  toVanAuxFuel n n

/-- `int_to_vancode`: base-36 encoding, zero-padded to a minimum width of 2;
`int_to_vancode 0 = "00"`. -/
def int_to_vancode (n : Nat) : String :=
  if n = 0 then "00"
  else
    let result := toVanAux n
    ⟨List.replicate (2 - result.length) '0' ++ result⟩

/-- Digit value of a character as in `vancode_to_int`: ASCII digits and
ASCII lowercase letters; anything else contributes 0. -/
def charDigit (c : Char) : Nat :=
  if '0' ≤ c ∧ c ≤ '9' then c.toNat - '0'.toNat
  else if 'a' ≤ c ∧ c ≤ 'z' then c.toNat - 'a'.toNat + 10
  else 0

/-- `vancode_to_int`: left fold `result = result * 36 + digit` in a `u32`
(wrapping modelled by an explicit `% 2^32`). -/
def vancode_to_int (s : String) : Nat :=
  s.data.foldl (fun acc c => (acc * 36 + charDigit c) % 2 ^ 32) 0

/-- Pure (non-wrapping) digit accumulation, used to reason about
`vancode_to_int`. -/
def decodePure (l : List Char) : Nat :=
  l.foldl (fun acc c => acc * 36 + charDigit c) 0

theorem charDigit_digitChar {d : Nat} (h : d < 36) : charDigit (digitChar d) = d := by
  interval_cases d <;> decide

theorem toVanAuxFuel_congr :
    ∀ f₁ f₂ n : Nat, n ≤ f₁ → n ≤ f₂ → toVanAuxFuel f₁ n = toVanAuxFuel f₂ n := by
  intro f₁
  induction f₁ using Nat.strong_induction_on with
  | _ f₁ ih =>
    intro f₂ n h₁ h₂
    match f₁, f₂ with
    | 0, f₂ =>
      interval_cases n
      match f₂ with
      | 0 => rfl
      | f₂ + 1 => simp [toVanAuxFuel]
    | f₁ + 1, 0 =>
      interval_cases n
      simp [toVanAuxFuel]
    | f₁ + 1, f₂ + 1 =>
      by_cases hn : n = 0
      · simp [toVanAuxFuel, hn]
      · simp only [toVanAuxFuel, hn, if_false]
        have hdiv : n / 36 < n := Nat.div_lt_self (Nat.pos_of_ne_zero hn) (by norm_num)
        rw [ih f₁ (Nat.lt_succ_self f₁) f₂ (n / 36) (by omega) (by omega)]

theorem toVanAux_pos {n : Nat} (h : n ≠ 0) :
    toVanAux n = toVanAux (n / 36) ++ [digitChar (n % 36)] := by
  have hdiv : n / 36 < n := Nat.div_lt_self (Nat.pos_of_ne_zero h) (by norm_num)
  match n, h with
  | n + 1, _ =>
    show toVanAuxFuel (n + 1) (n + 1) = _
    simp only [toVanAuxFuel, if_false]
    rw [toVanAuxFuel_congr n ((n + 1) / 36) ((n + 1) / 36) (by omega) (le_refl _)]
    rfl

theorem decodePure_append (l : List Char) (c : Char) :
    decodePure (l ++ [c]) = decodePure l * 36 + charDigit c := by
  simp [decodePure, List.foldl_append]

theorem decodePure_toVanAux (n : Nat) : decodePure (toVanAux n) = n := by
  induction n using Nat.strong_induction_on with
  | _ n ih =>
    by_cases h : n = 0
    · subst h; rfl
    · rw [toVanAux_pos h, decodePure_append,
        ih (n / 36) (Nat.div_lt_self (Nat.pos_of_ne_zero h) (by norm_num)),
        charDigit_digitChar (Nat.mod_lt _ (by norm_num))]
      omega

theorem foldl_replicate_zero (k : Nat) :
    List.foldl (fun acc c => acc * 36 + charDigit c) 0 (List.replicate k '0') = 0 := by
  induction k with
  | zero => rfl
  | succ k ih =>
    rw [List.replicate_succ, List.foldl_cons]
    have : (0 : Nat) * 36 + charDigit '0' = 0 := by decide
    rw [this, ih]

theorem decodePure_replicate_zero (k : Nat) (l : List Char) :
    decodePure (List.replicate k '0' ++ l) = decodePure l := by
  simp only [decodePure, List.foldl_append, foldl_replicate_zero]

/-- The wrapping fold is the pure fold reduced mod `2^32`. -/
theorem vancode_to_int_eq_mod (s : String) :
    vancode_to_int s = decodePure s.data % 2 ^ 32 := by
  show List.foldl _ 0 s.data = List.foldl _ 0 s.data % 2 ^ 32
  have key : ∀ (l : List Char) (a : Nat),
      List.foldl (fun acc c => (acc * 36 + charDigit c) % 2 ^ 32) (a % 2 ^ 32) l
        = List.foldl (fun acc c => acc * 36 + charDigit c) a l % 2 ^ 32 := by
    intro l
    induction l with
    | nil => intro a; simp
    | cons c t ih =>
      intro a
      simp only [List.foldl_cons]
      have step : (a % 2 ^ 32 * 36 + charDigit c) % 2 ^ 32
          = (a * 36 + charDigit c) % 2 ^ 32 :=
        ((Nat.mod_modEq a (2 ^ 32)).mul_right 36).add_right (charDigit c)
      rw [step, ih (a * 36 + charDigit c)]
  simpa using key s.data 0

theorem decodePure_int_to_vancode (n : Nat) :
    decodePure (int_to_vancode n).data = n := by
  by_cases h : n = 0
  · subst h; decide
  · show decodePure (if n = 0 then "00" else _).data = n
    rw [if_neg h]
    show decodePure (List.replicate (2 - (toVanAux n).length) '0' ++ toVanAux n) = n
    rw [decodePure_replicate_zero, decodePure_toVanAux]

theorem toVanAux_mem {n : Nat} {c : Char} (h : c ∈ toVanAux n) :
    ∃ d, d < 36 ∧ c = digitChar d := by
  induction n using Nat.strong_induction_on with
  | _ n ih =>
    by_cases h0 : n = 0
    · subst h0; simp [toVanAux, toVanAuxFuel] at h
    · rw [toVanAux_pos h0, List.mem_append, List.mem_singleton] at h
      rcases h with h | h
      · exact ih (n / 36) (Nat.div_lt_self (Nat.pos_of_ne_zero h0) (by norm_num)) h
      · exact ⟨n % 36, Nat.mod_lt _ (by norm_num), h⟩

theorem digitChar_base36 : ∀ d, d < 36 →
    ('0' ≤ digitChar d ∧ digitChar d ≤ '9') ∨ ('a' ≤ digitChar d ∧ digitChar d ≤ 'z') := by
  decide

/-- C5: the vancode codec round-trips on the `u32` domain; `encode 0 = "00"`;
the encoding is zero-padded to width ≥ 2 over the alphabet `0-9a-z`. -/
theorem C5_vancode_roundtrip :
    (∀ n : Nat, n < 2 ^ 32 → vancode_to_int (int_to_vancode n) = n)
    ∧ int_to_vancode 0 = "00"
    ∧ (∀ n : Nat, 2 ≤ (int_to_vancode n).length)
    ∧ (∀ n : Nat, ∀ c ∈ (int_to_vancode n).data,
        ('0' ≤ c ∧ c ≤ '9') ∨ ('a' ≤ c ∧ c ≤ 'z')) := by
  refine ⟨?_, rfl, ?_, ?_⟩
  · intro n hn
    rw [vancode_to_int_eq_mod, decodePure_int_to_vancode, Nat.mod_eq_of_lt hn]
  · intro n
    by_cases h : n = 0
    · subst h; decide
    · show 2 ≤ (if n = 0 then "00" else _).length
      rw [if_neg h]
      show 2 ≤ (List.replicate (2 - (toVanAux n).length) '0' ++ toVanAux n).length
      rw [List.length_append, List.length_replicate]
      omega
  · intro n c hc
    by_cases h : n = 0
    · subst h
      have : c ∈ ("00" : String).data := hc
      have : c = '0' := by
        simpa using this
      subst this; decide
    · have hc' : c ∈ (if n = 0 then "00" else
          (⟨List.replicate (2 - (toVanAux n).length) '0' ++ toVanAux n⟩ : String)).data := hc
      rw [if_neg h] at hc'
      have : c ∈ List.replicate (2 - (toVanAux n).length) '0' ++ toVanAux n := hc'
      rw [List.mem_append] at this
      rcases this with h' | h'
      · have : c = '0' := List.eq_of_mem_replicate h'
        subst this; decide
      · obtain ⟨d, hd, rfl⟩ := toVanAux_mem h'
        exact digitChar_base36 d hd

/-- C5 witness: the round-trip evaluated at the concrete input 1296. -/
theorem C5_vancode_roundtrip_witness :
    vancode_to_int (int_to_vancode 1296) = 1296 :=
  C5_vancode_roundtrip.1 1296 (by norm_num)

/-! ### Strict monotonicity within a width class (C6) -/

/-- Fixed-width base-36 representation: exactly `L` digit characters. -/
def vanFix : Nat → Nat → List Char
  | 0, _ => []
  | L + 1, n => vanFix L (n / 36) ++ [digitChar (n % 36)]

theorem vanFix_length (L n : Nat) : (vanFix L n).length = L := by
  induction L generalizing n with
  | zero => rfl
  | succ L ih => simp [vanFix, ih]

theorem vanFix_zero (L : Nat) : vanFix L 0 = List.replicate L '0' := by
  induction L with
  | zero => rfl
  | succ L ih =>
    show vanFix L 0 ++ [digitChar 0] = _
    rw [ih, show digitChar 0 = '0' from rfl, ← List.replicate_succ']

theorem toVanAux_lt (n : Nat) : n < 36 ^ (toVanAux n).length := by
  induction n using Nat.strong_induction_on with
  | _ n ih =>
    by_cases h : n = 0
    · subst h; simp [toVanAux, toVanAuxFuel]
    · rw [toVanAux_pos h]
      rw [List.length_append, List.length_singleton, pow_succ]
      have hq := ih (n / 36) (Nat.div_lt_self (Nat.pos_of_ne_zero h) (by norm_num))
      have := Nat.div_add_mod n 36
      have hm : n % 36 < 36 := Nat.mod_lt _ (by norm_num)
      nlinarith [hq, hm]

theorem vanFix_eq_pad : ∀ L n, n < 36 ^ L →
    vanFix L n = List.replicate (L - (toVanAux n).length) '0' ++ toVanAux n := by
  intro L
  induction L with
  | zero =>
    intro n hn
    interval_cases n
    rfl
  | succ L ih =>
    intro n hn
    by_cases h : n = 0
    · subst h
      show vanFix (L + 1) 0 = _
      rw [vanFix_zero]
      simp [toVanAux, toVanAuxFuel]
    · show vanFix L (n / 36) ++ [digitChar (n % 36)] = _
      have hq : n / 36 < 36 ^ L := by
        rw [Nat.div_lt_iff_lt_mul (by norm_num : 0 < 36)]
        calc n < 36 ^ (L + 1) := hn
          _ = 36 ^ L * 36 := by rw [pow_succ]
      rw [ih (n / 36) hq, toVanAux_pos h, List.length_append, List.length_singleton,
        List.append_assoc]
      congr 2
      omega

theorem int_to_vancode_data (n L : Nat)
    (hL : (int_to_vancode n).data.length = L) :
    n < 36 ^ L ∧ (int_to_vancode n).data = vanFix L n := by
  by_cases h : n = 0
  · subst h
    have : L = 2 := by simpa using hL.symm
    subst this
    exact ⟨by norm_num, by decide⟩
  · have hdata : (int_to_vancode n).data
        = List.replicate (2 - (toVanAux n).length) '0' ++ toVanAux n := by
      show (if n = 0 then "00" else _).data = _
      rw [if_neg h]
    rw [hdata, List.length_append, List.length_replicate] at hL
    have hlen : (toVanAux n).length ≤ L := by omega
    have hn : n < 36 ^ L :=
      lt_of_lt_of_le (toVanAux_lt n) (Nat.pow_le_pow_right (by norm_num) hlen)
    refine ⟨hn, ?_⟩
    rw [hdata, vanFix_eq_pad L n hn]
    congr 2
    omega

theorem list_lt_append {as bs cs ds : List Char}
    (hlen : as.length = bs.length) (h : List.lt as bs) :
    List.lt (as ++ cs) (bs ++ ds) := by
  induction as generalizing bs with
  | nil =>
    have : bs = [] := by
      cases bs with
      | nil => rfl
      | cons b t => simp at hlen
    subst this
    cases h
  | cons a as ih =>
    cases bs with
    | nil => simp at hlen
    | cons b bt =>
      cases h with
      | head _ _ hab => exact List.lt.head _ _ hab
      | tail h1 h2 h3 =>
        exact List.lt.tail h1 h2 (ih (by simpa using hlen) h3)

theorem list_lt_shared_stem (p : List Char) {a b : Char} (as bs : List Char)
    (hab : a < b) :
    List.lt (p ++ a :: as) (p ++ b :: bs) := by
  induction p with
  | nil => exact List.lt.head _ _ hab
  | cons c p ih => exact List.lt.tail (lt_irrefl c) (lt_irrefl c) ih

theorem digitChar_mono : ∀ x, x < 36 → ∀ y, y < 36 → x < y →
    digitChar x < digitChar y := by
  decide

theorem vanFix_mono : ∀ L a b, a < b → b < 36 ^ L →
    List.lt (vanFix L a) (vanFix L b) := by
  intro L
  induction L with
  | zero =>
    intro a b hab hb
    interval_cases b
    omega
  | succ L ih =>
    intro a b hab hb
    have hqb : b / 36 < 36 ^ L := by
      rw [Nat.div_lt_iff_lt_mul (by norm_num : 0 < 36)]
      calc b < 36 ^ (L + 1) := hb
        _ = 36 ^ L * 36 := by rw [pow_succ]
    have hqle : a / 36 ≤ b / 36 := Nat.div_le_div_right (le_of_lt hab)
    rcases lt_or_eq_of_le hqle with hq | hq
    · exact list_lt_append (by rw [vanFix_length, vanFix_length]) (ih _ _ hq hqb)
    · have hr : a % 36 < b % 36 := by
        have ha' := Nat.div_add_mod a 36
        have hb' := Nat.div_add_mod b 36
        omega
      show List.lt (vanFix L (a / 36) ++ [digitChar (a % 36)])
        (vanFix L (b / 36) ++ [digitChar (b % 36)])
      rw [hq]
      exact list_lt_shared_stem _ _ _
        (digitChar_mono _ (Nat.mod_lt _ (by norm_num)) _ (Nat.mod_lt _ (by norm_num)) hr)

/-- C6: vancode encoding is strictly monotonic within a width class:
for `a < b` with equal encoded character length, `encode a` is
lexicographically smaller than `encode b` as a string. -/
theorem C6_vancode_mono (a b : Nat) (hab : a < b)
    (hlen : (int_to_vancode a).length = (int_to_vancode b).length) :
    int_to_vancode a < int_to_vancode b := by
  have hb := int_to_vancode_data b (int_to_vancode b).data.length rfl
  have ha := int_to_vancode_data a (int_to_vancode b).data.length
    (show (int_to_vancode a).data.length = _ from hlen)
  have key : List.lt (vanFix (int_to_vancode b).data.length a)
      (vanFix (int_to_vancode b).data.length b) :=
    vanFix_mono _ a b hab hb.1
  rw [← ha.2, ← hb.2] at key
  exact String.lt_iff_toList_lt.mpr ((List.lt_iff_lex_lt _ _).mp key)

/-- C6 witness: `0 < 1`, both encodings have width 2, and `"00" < "01"`. -/
theorem C6_vancode_mono_witness :
    (0 : Nat) < 1 ∧ (int_to_vancode 0).length = (int_to_vancode 1).length
    ∧ int_to_vancode 0 < int_to_vancode 1 :=
  ⟨by decide, by decide, C6_vancode_mono 0 1 (by decide) (by decide)⟩

/-! ## Comment rows and the comment/statistics tables
(`src/models/comment.rs`) -/

/-- A row of the `comments` table (struct `Comment`). -/
structure CommentRow where
  cid : Nat
  pid : Nat
  nid : Nat
  uid : Nat
  subject : String
  comment : String
  hostname : String
  timestamp : Int
  status : Int
  thread : String
  name : Option String
  mail : Option String
  homepage : Option String
deriving Repr, DecidableEq

/-- A row of `node_comment_statistics` (struct `NodeCommentStatistics`). -/
structure StatsRow where
  nid : Nat
  last_comment_timestamp : Int
  last_comment_name : Option String
  last_comment_uid : Nat
  comment_count : Nat
deriving Repr, DecidableEq

/-- The database state touched by the comment engine: the `comments` table,
the `node_comment_statistics` table, and the `AUTO_INCREMENT` counter that
produces `last_insert_id` for new comments. -/
structure CommentDb where
  comments : List CommentRow
  stats : List StatsRow
  next_cid : Nat
deriving Repr, DecidableEq

/-- Boolean lexicographic comparison of character lists, the meaning of a
MySQL `ORDER BY <string expr>` on the ASCII data stored in `thread`. -/
def charsLt : List Char → List Char → Bool
  | [], [] => false
  | [], _ :: _ => true
  | _ :: _, [] => false
  | a :: as, b :: bs => if a < b then true else if b < a then false else charsLt as bs

/-- Lexicographic `<` on strings (MySQL string ordering on ASCII data). -/
def strLtB (s t : String) : Bool :=
  charsLt s.data t.data

/-- `ORDER BY k(x) DESC LIMIT 1` over a result list: the first row whose key
is maximal (MySQL leaves tie order unspecified; we resolve ties to the first
row in table order). -/
def maxByKeyStr {α : Type} (l : List α) (k : α → String) : Option α :=
  l.foldl
    (fun acc x =>
      match acc with
      | none => some x
      | some y => if strLtB (k y) (k x) then some x else some y)
    none

/-- `ORDER BY k(x) DESC LIMIT 1` for an integer key (used on `timestamp`). -/
def maxByKeyZ {α : Type} (l : List α) (k : α → Int) : Option α :=
  l.foldl
    (fun acc x =>
      match acc with
      | none => some x
      | some y => if k y < k x then some x else some y)
    none

/-- Rust `str::trim_end_matches('/')`: remove every trailing `'/'`. -/
def trimEndSlashes (s : String) : String :=
  ⟨(s.data.reverse.dropWhile (fun c => c = '/')).reverse⟩

/-- MySQL `SUBSTRING(s, 1, LENGTH(s) - 1)` on the ASCII thread data:
everything but the last character. -/
def dropLastStr (s : String) : String :=
  ⟨s.data.dropLast⟩

/-- Rust `child_part.rfind('.')` followed by slicing `[last_dot + 1 ..]`:
the segment after the last `'.'`, or `none` when there is no dot. -/
def lastSegAfterDot (cs : List Char) : Option (List Char) :=
  let r := cs.reverse
  let seg := r.takeWhile (fun c => c ≠ '.')
  if seg.length = r.length then none else some seg.reverse

/-- `Comment::calculate_thread` (`src/models/comment.rs:185-252`).

* `pid = 0`: `SELECT thread … WHERE nid = ? AND pid = 0 ORDER BY
  SUBSTRING(thread,1,LENGTH(thread)-1) DESC LIMIT 1`; decode the result with
  the trailing slashes trimmed, add one (0 when no row), encode, append `"/"`.
* otherwise: fetch the parent's thread (default `"00/"` when the parent is
  missing), strip trailing `'/'`; `SELECT thread … WHERE nid = ? AND thread
  LIKE '<stem>.%' AND thread != <parent> ORDER BY thread DESC LIMIT 1`;
  decode the last dot-separated segment of the result (0 when no row or no
  dot), add one, encode into `<stem>.<digits>/`. -/
def calculate_thread (comments : List CommentRow) (nid pid : Nat) : String :=
  if pid = 0 then
    let rows := comments.filter (fun c => c.nid == nid && c.pid == 0)
    let next :=
      match maxByKeyStr rows (fun c => dropLastStr c.thread) with
      | some c => vancode_to_int (trimEndSlashes c.thread) + 1
      | none => 0
    int_to_vancode next ++ "/"
  else
    let parent_thread :=
      match comments.find? (fun c => c.cid == pid) with
      | some c => c.thread
      | none => "00/"
    let stem := trimEndSlashes parent_thread
    let rows := comments.filter (fun c =>
      c.nid == nid && (stem ++ ".").data.isPrefixOf c.thread.data
        && c.thread != parent_thread)
    let next :=
      match maxByKeyStr rows (fun c => c.thread) with
      | some c =>
        match lastSegAfterDot (trimEndSlashes c.thread).data with
        | some seg => vancode_to_int ⟨seg⟩ + 1
        | none => 0
      | none => 0
    stem ++ "." ++ int_to_vancode next ++ "/"

/-- `Comment::count_for_node`: `SELECT COUNT(*) FROM comments WHERE nid = ?
AND status = 0`. -/
def count_for_node (comments : List CommentRow) (nid : Nat) : Nat :=
  (comments.filter (fun c => c.nid == nid && c.status == 0)).length

/-- `SELECT * FROM node_comment_statistics WHERE nid = ?`. -/
def lookupStats (l : List StatsRow) (nid : Nat) : Option StatsRow :=
  l.find? (fun x => x.nid == nid)

/-- `INSERT … ON DUPLICATE KEY UPDATE` on `node_comment_statistics`
(key `nid`; every non-key column is overwritten). -/
def upsertStats (l : List StatsRow) (r : StatsRow) : List StatsRow :=
  if l.any (fun x => x.nid == r.nid) then
    l.map (fun x => if x.nid == r.nid then r else x)
  else l ++ [r]

/-- `Comment::update_statistics` (`src/models/comment.rs:254-287`): count the
published comments, then upsert the row with the caller-supplied
`timestamp`, `name`, `uid` — the freshly inserted comment's values,
whatever its status. -/
def update_statistics (db : CommentDb) (nid uid : Nat) (name : Option String)
    (timestamp : Int) : CommentDb :=
  let count := count_for_node db.comments nid
  { db with stats := upsertStats db.stats ⟨nid, timestamp, name, uid, count⟩ }

/-- The row `Comment::recalculate_statistics` writes: the latest *published*
comment of the item by `timestamp` (sentinel `(0, NULL, 0, 0)` when none). -/
def aggregateStats (comments : List CommentRow) (nid : Nat) : StatsRow :=
  let published := comments.filter (fun c => c.nid == nid && c.status == 0)
  match maxByKeyZ published (fun c => c.timestamp) with
  | some c => ⟨nid, c.timestamp, c.name, c.uid, published.length⟩
  | none => ⟨nid, 0, none, 0, 0⟩

/-- `Comment::recalculate_statistics` (`src/models/comment.rs:289-350`). -/
def recalculate_statistics (db : CommentDb) (nid : Nat) : CommentDb :=
  { db with stats := upsertStats db.stats (aggregateStats db.comments nid) }

/-- The insert step of `Comment::create`: insert the row with the given
(already computed) thread, then `update_statistics`.  Returns the new `cid`
(`last_insert_id`). -/
def comment_insert (db : CommentDb) (thread : String) (nid pid uid : Nat)
    (subject comment hostname : String) (name mail homepage : Option String)
    (status : Int) (now : Int) : CommentDb × Nat :=
  let cid := db.next_cid
  let db1 : CommentDb :=
    { db with
      comments := db.comments
        ++ [⟨cid, pid, nid, uid, subject, comment, hostname, now, status,
             thread, name, mail, homepage⟩]
      next_cid := cid + 1 }
  (update_statistics db1 nid uid name now, cid)

/-- `Comment::create` (`src/models/comment.rs:103-148`): compute the thread
from the current table state, insert, update statistics.  The clock value
(`chrono::Utc::now().timestamp()`) is the explicit `now`. -/
def comment_create (db : CommentDb) (nid pid uid : Nat)
    (subject comment hostname : String) (name mail homepage : Option String)
    (status : Int) (now : Int) : CommentDb × Nat :=
  comment_insert db (calculate_thread db.comments nid pid) nid pid uid
    subject comment hostname name mail homepage status now

/-- `Comment::delete` (`src/models/comment.rs:167-182`): look the comment up,
delete the row, and recalculate the statistics of its item when it existed. -/
def comment_delete (db : CommentDb) (cid : Nat) : CommentDb :=
  let found := db.comments.find? (fun c => c.cid == cid)
  let db1 : CommentDb := { db with comments := db.comments.filter (fun c => !(c.cid == cid)) }
  match found with
  | some c => recalculate_statistics db1 c.nid
  | none => db1

/-- Arguments of one `Comment::create` call other than the identity of the
parent/item (used to state the concurrent-creation property). -/
structure CreateArgs where
  uid : Nat
  subject : String
  comment : String
  hostname : String
  name : Option String
  mail : Option String
  homepage : Option String
  status : Int
  now : Int
deriving Repr, DecidableEq

/-- The racy interleaving of two concurrent `Comment::create` calls on the
same item/parent: both tasks run `calculate_thread` against the same
snapshot (the read happens before either insert — the code runs the read
and the insert as separate pool calls with no transaction, uniqueness
constraint handling, or retry), then both inserts commit. -/
def race_create (db : CommentDb) (nid pid : Nat) (a1 a2 : CreateArgs) : CommentDb :=
  let t1 := calculate_thread db.comments nid pid
  let t2 := calculate_thread db.comments nid pid
  let db1 := (comment_insert db t1 nid pid a1.uid a1.subject a1.comment a1.hostname
    a1.name a1.mail a1.homepage a1.status a1.now).1
  (comment_insert db1 t2 nid pid a2.uid a2.subject a2.comment a2.hostname
    a2.name a2.mail a2.homepage a2.status a2.now).1

/-! ## C1: the thread-path computation against the spec's algorithm -/

/-- A well-formed stored thread path: ends in exactly one `'/'` and contains
no other slash (every path the engine itself writes has this shape). -/
def WfThread (s : String) : Prop :=
  s.data.getLast? = some '/' ∧ '/' ∉ s.data.dropLast

instance (s : String) : Decidable (WfThread s) := by
  unfold WfThread; infer_instance

/-- The claim's thread computation, following the spec's words: for a
top-level comment the maximum existing top-level path is taken **by the
numeric value of the decoded digit group** (not by string order); the reply
branch is as in the source. -/
def spec_calculate_thread_claim (comments : List CommentRow) (nid pid : Nat) : String :=
  if pid = 0 then
    let rows := comments.filter (fun c => c.nid == nid && c.pid == 0)
    let groups := rows.map (fun c => vancode_to_int (trimEndSlashes c.thread))
    let next :=
      match groups.max? with
      | some m => m + 1
      | none => 0
    int_to_vancode next ++ "/"
  else
    let parent_thread :=
      match comments.find? (fun c => c.cid == pid) with
      | some c => c.thread
      | none => "00/"
    let stem := trimEndSlashes parent_thread
    let rows := comments.filter (fun c =>
      c.nid == nid && (stem ++ ".").data.isPrefixOf c.thread.data
        && c.thread != parent_thread)
    let next :=
      match maxByKeyStr rows (fun c => c.thread) with
      | some c =>
        match lastSegAfterDot (trimEndSlashes c.thread).data with
        | some seg => vancode_to_int ⟨seg⟩ + 1
        | none => 0
      | none => 0
    stem ++ "." ++ int_to_vancode next ++ "/"

/-- The amended claim's thread computation: identical to
`spec_calculate_thread_claim` except that the top-level maximum is taken by
**lexicographic string order of the digit group** (which is what the
source's `ORDER BY SUBSTRING(thread,1,LENGTH(thread)-1) DESC` does). -/
def spec_calculate_thread_amended (comments : List CommentRow) (nid pid : Nat) : String :=
  if pid = 0 then
    let rows := comments.filter (fun c => c.nid == nid && c.pid == 0)
    let next :=
      match maxByKeyStr rows (fun c => trimEndSlashes c.thread) with
      | some c => vancode_to_int (trimEndSlashes c.thread) + 1
      | none => 0
    int_to_vancode next ++ "/"
  else
    let parent_thread :=
      match comments.find? (fun c => c.cid == pid) with
      | some c => c.thread
      | none => "00/"
    let stem := trimEndSlashes parent_thread
    let rows := comments.filter (fun c =>
      c.nid == nid && (stem ++ ".").data.isPrefixOf c.thread.data
        && c.thread != parent_thread)
    let next :=
      match maxByKeyStr rows (fun c => c.thread) with
      | some c =>
        match lastSegAfterDot (trimEndSlashes c.thread).data with
        | some seg => vancode_to_int ⟨seg⟩ + 1
        | none => 0
      | none => 0
    stem ++ "." ++ int_to_vancode next ++ "/"

theorem maxByKeyStr_congr {α : Type} (l : List α) (k₁ k₂ : α → String)
    (h : ∀ x ∈ l, k₁ x = k₂ x) : maxByKeyStr l k₁ = maxByKeyStr l k₂ := by
  suffices key : ∀ (l' : List α), (∀ x ∈ l', k₁ x = k₂ x) →
      ∀ (acc : Option α), (∀ y, acc = some y → k₁ y = k₂ y) →
      l'.foldl (fun acc x => match acc with
        | none => some x
        | some y => if strLtB (k₁ y) (k₁ x) then some x else some y) acc
      = l'.foldl (fun acc x => match acc with
        | none => some x
        | some y => if strLtB (k₂ y) (k₂ x) then some x else some y) acc by
    exact key l h none (by simp)
  intro l'
  induction l' with
  | nil => intro _ acc _; rfl
  | cons x t ih =>
    intro hl acc hacc
    have hx : k₁ x = k₂ x := hl x (by simp)
    have hl' : ∀ z ∈ t, k₁ z = k₂ z := fun z hz => hl z (List.mem_cons_of_mem _ hz)
    cases acc with
    | none =>
      show List.foldl _ (some x) t = List.foldl _ (some x) t
      exact ih hl' (some x) (fun y hy => by cases hy; exact hx)
    | some y =>
      have hy := hacc y rfl
      show List.foldl _ (if strLtB (k₁ y) (k₁ x) then some x else some y) t
        = List.foldl _ (if strLtB (k₂ y) (k₂ x) then some x else some y) t
      rw [hx, hy]
      exact ih hl' _ (fun z hz => by
        by_cases hb : strLtB (k₂ y) (k₂ x)
        · rw [if_pos hb] at hz; cases hz; exact hx
        · rw [if_neg hb] at hz; cases hz; exact hy)

theorem wfThread_key {s : String} (h : WfThread s) :
    dropLastStr s = trimEndSlashes s := by
  obtain ⟨hlast, hmem⟩ := h
  have hne : s.data ≠ [] := by
    intro hnil
    rw [hnil] at hlast
    simp at hlast
  have hsplit : s.data.dropLast ++ [s.data.getLast hne] = s.data :=
    List.dropLast_append_getLast hne
  have hgl : s.data.getLast hne = '/' := by
    have := List.getLast?_eq_getLast s.data hne
    rw [this] at hlast
    exact Option.some_injective _ hlast.symm |>.symm
  rw [hgl] at hsplit
  show (⟨s.data.dropLast⟩ : String) = ⟨(s.data.reverse.dropWhile (fun c => c = '/')).reverse⟩
  have hrev : s.data.reverse = '/' :: s.data.dropLast.reverse := by
    rw [← hsplit]
    simp
  rw [hrev]
  have hstep : List.dropWhile (fun c => c = '/') ('/' :: s.data.dropLast.reverse)
      = List.dropWhile (fun c => c = '/') s.data.dropLast.reverse := by
    simp [List.dropWhile_cons]
  rw [hstep]
  have hkeep : List.dropWhile (fun c => c = '/') s.data.dropLast.reverse
      = s.data.dropLast.reverse := by
    cases hc : s.data.dropLast.reverse with
    | nil => rfl
    | cons c t =>
      have hcm : c ∈ s.data.dropLast := by
        have : c ∈ s.data.dropLast.reverse := by rw [hc]; simp
        simpa using this
      have : c ≠ '/' := fun hcc => hmem (hcc ▸ hcm)
      simp [List.dropWhile_cons, this]
  rw [hkeep]
  simp

/-- The two top-level sibling paths whose string order and numeric order
disagree: `"zz/"` decodes to 1295, `"100/"` to 1296. -/
def wideDb : List CommentRow :=
  [⟨1, 0, 1, 0, "", "", "", 0, 0, "zz/", none, none, none⟩,
   ⟨2, 0, 1, 0, "", "", "", 0, 0, "100/", none, none, none⟩]

/-- C1 counterexample: with top-level paths `"zz/"` and `"100/"` the source
picks the string-order maximum `"zz"` (1295) and produces `"100/"` — a
collision with the existing path — while the claim's numeric-maximum rule
produces `"101/"`. -/
theorem C1_counterexample :
    calculate_thread wideDb 1 0 = "100/"
    ∧ spec_calculate_thread_claim wideDb 1 0 = "101/"
    ∧ calculate_thread wideDb 1 0 ≠ spec_calculate_thread_claim wideDb 1 0 := by
  refine ⟨by decide, by decide, by decide⟩

/-- One top-level comment at `"00/"`. -/
def oneTop : List CommentRow :=
  [⟨1, 0, 1, 0, "", "", "", 0, 0, "00/", none, none, none⟩]

/-- `"00/"` plus its first reply `"00.00/"`. -/
def oneTopOneReply : List CommentRow :=
  [⟨1, 0, 1, 0, "", "", "", 0, 0, "00/", none, none, none⟩,
   ⟨2, 1, 1, 0, "", "", "", 0, 0, "00.00/", none, none, none⟩]

/-- C1 (amended): `calculate_thread` fulfils the spec's algorithm with the
top-level maximum taken by **lexicographic string order** of the digit group
(not numeric value as claimed); the reply branch and the concrete examples
(`"00/" ↦` reply `"00.00/"`, second reply `"00.01/"`, sibling `"01/"`)
behave exactly as claimed. -/
theorem C1_calculate_thread_amended :
    (∀ (comments : List CommentRow) (nid pid : Nat),
        (∀ c ∈ comments, WfThread c.thread) →
        calculate_thread comments nid pid = spec_calculate_thread_amended comments nid pid)
    ∧ calculate_thread oneTop 1 1 = "00.00/"
    ∧ calculate_thread oneTopOneReply 1 1 = "00.01/"
    ∧ calculate_thread oneTopOneReply 1 0 = "01/" := by
  refine ⟨?_, by decide, by decide, by decide⟩
  intro comments nid pid h
  unfold calculate_thread spec_calculate_thread_amended
  by_cases hp : pid = 0
  · simp only [if_pos hp]
    have hkeys : ∀ c ∈ comments.filter (fun c => c.nid == nid && c.pid == 0),
        dropLastStr c.thread = trimEndSlashes c.thread :=
      fun c hc => wfThread_key (h c (List.mem_of_mem_filter hc))
    rw [maxByKeyStr_congr _ _ _ hkeys]
  · simp only [if_neg hp]

/-- C1 witness: the amended equivalence applied to the concrete two-row
state `wideDb` (whose paths are well formed). -/
theorem C1_calculate_thread_amended_witness :
    calculate_thread wideDb 1 0 = spec_calculate_thread_amended wideDb 1 0 :=
  C1_calculate_thread_amended.1 wideDb 1 0 (by decide)

/-! ## C2: `node_comment_statistics` after insert and delete -/

theorem find?_append_none {α : Type} (p : α → Bool) {l : List α} (l' : List α)
    (h : l.find? p = none) : (l ++ l').find? p = l'.find? p := by
  induction l with
  | nil => rfl
  | cons x t ih =>
    cases hx : p x with
    | true =>
      rw [List.find?_cons_of_pos _ hx] at h
      exact absurd h (by simp)
    | false =>
      rw [List.find?_cons_of_neg _ (by simp [hx])] at h
      rw [List.cons_append, List.find?_cons_of_neg _ (by simp [hx])]
      exact ih h

theorem lookupStats_upsertStats (l : List StatsRow) (r : StatsRow) :
    lookupStats (upsertStats l r) r.nid = some r := by
  unfold lookupStats upsertStats
  by_cases h : l.any (fun x => x.nid == r.nid)
  · rw [if_pos h]
    induction l with
    | nil => simp at h
    | cons x t ih =>
      by_cases hx : x.nid == r.nid
      · simp only [List.map_cons, if_pos hx, List.find?_cons]
        have : (r.nid == r.nid) = true := by simp
        rw [this]
      · have ht : t.any (fun x => x.nid == r.nid) := by
          rcases List.any_eq_true.mp h with ⟨z, hz, hzn⟩
          rcases List.mem_cons.mp hz with rfl | hz'
          · exact absurd hzn (by simpa using hx)
          · exact List.any_eq_true.mpr ⟨z, hz', hzn⟩
        simp only [List.map_cons, if_neg hx, List.find?_cons]
        have hx' : (x.nid == r.nid) = false := by simpa using hx
        rw [hx']
        exact ih ht
  · rw [if_neg h]
    have hnone : l.find? (fun x => x.nid == r.nid) = none := by
      rw [List.find?_eq_none]
      intro x hx
      intro hxn
      exact h (List.any_eq_true.mpr ⟨x, hx, hxn⟩)
    rw [find?_append_none _ _ hnone]
    simp [List.find?_cons]

theorem aggregateStats_nid (comments : List CommentRow) (nid : Nat) :
    (aggregateStats comments nid).nid = nid := by
  unfold aggregateStats
  dsimp only
  split <;> rfl

theorem lookupStats_upsertStats_at (l : List StatsRow) (r : StatsRow) (n : Nat)
    (h : r.nid = n) : lookupStats (upsertStats l r) n = some r :=
  h ▸ lookupStats_upsertStats l r

/-- The empty database used by the concrete statistics scenarios. -/
def emptyCommentDb : CommentDb := ⟨[], [], 1⟩

/-- C2 counterexample: inserting an `AwaitingModeration` comment
(`status = 1`, the `COMMENT_NOT_PUBLISHED` of the source) updates the
last-comment fields to the unpublished comment's data, so the stored row
diverges from the fresh aggregate over published comments (which is the
sentinel row, as no published comment exists). -/
theorem C2_counterexample :
    lookupStats ((comment_create emptyCommentDb 1 0 5 "s" "b" "h"
        (some "bob") none none 1 100).1).stats 1
      ≠ some (aggregateStats ((comment_create emptyCommentDb 1 0 5 "s" "b" "h"
        (some "bob") none none 1 100).1).comments 1) := by
  decide

/-- C2 (amended): after `Comment::delete` of an existing comment the
statistics row of the affected item equals the fresh aggregate over the
remaining comments (count of published comments; latest published comment's
timestamp/author; sentinel `(0, NULL, 0, 0)` when none remain, so deleting
the only comment resets the row), and deleting a missing comment leaves the
statistics untouched.  After `Comment::create`, however, the row's count is
the number of published comments but the last-comment fields are always the
freshly inserted comment's `(now, name, uid)` — regardless of its status —
so the row matches the fresh aggregate only when the new comment is the
latest published one. -/
theorem C2_statistics_amended :
    (∀ (db : CommentDb) (nid pid uid : Nat) (subject body hostname : String)
        (name mail homepage : Option String) (status : Int) (now : Int),
        lookupStats ((comment_create db nid pid uid subject body hostname
            name mail homepage status now).1).stats nid
          = some ⟨nid, now, name, uid,
              count_for_node ((comment_create db nid pid uid subject body hostname
                name mail homepage status now).1).comments nid⟩)
    ∧ (∀ (db : CommentDb) (cid : Nat) (c : CommentRow),
        db.comments.find? (fun x => x.cid == cid) = some c →
        lookupStats (comment_delete db cid).stats c.nid
          = some (aggregateStats (comment_delete db cid).comments c.nid))
    ∧ (∀ (db : CommentDb) (cid : Nat),
        db.comments.find? (fun x => x.cid == cid) = none →
        (comment_delete db cid).stats = db.stats)
    ∧ lookupStats (comment_delete ((comment_create emptyCommentDb 1 0 5 "s" "b" "h"
        (some "bob") none none 0 100).1) 1).stats 1
      = some ⟨1, 0, none, 0, 0⟩ := by
  refine ⟨?_, ?_, ?_, by decide⟩
  · intro db nid pid uid subject body hostname name mail homepage status now
    show lookupStats (upsertStats db.stats _) nid = _
    exact lookupStats_upsertStats db.stats _
  · intro db cid c hfound
    simp only [comment_delete, hfound, recalculate_statistics]
    exact lookupStats_upsertStats_at _ _ _ (aggregateStats_nid _ _)
  · intro db cid hnone
    unfold comment_delete
    rw [hnone]

/-- C2 witness: the delete branch applied to a one-comment database. -/
theorem C2_statistics_amended_witness :
    lookupStats (comment_delete ⟨oneTop, [], 2⟩ 1).stats 1
      = some (aggregateStats (comment_delete ⟨oneTop, [], 2⟩ 1).comments 1) :=
  C2_statistics_amended.2.1 ⟨oneTop, [], 2⟩ 1
    ⟨1, 0, 1, 0, "", "", "", 0, 0, "00/", none, none, none⟩ (by decide)

/-! ## C10: concurrent replies and thread-path uniqueness -/

/-- C10 (amended): `Comment::create` computes the path and inserts with no
storage-level uniqueness handling, retry, or `Conflict` error; under the
racy interleaving in which both tasks read the same snapshot, the two
inserted comments of the item carry the **same** thread path. -/
theorem C10_race_duplicate_amended (db : CommentDb) (nid pid : Nat)
    (a1 a2 : CreateArgs) :
    ((race_create db nid pid a1 a2).comments.drop db.comments.length).map
        (fun c => (c.nid, c.thread))
      = [(nid, calculate_thread db.comments nid pid),
         (nid, calculate_thread db.comments nid pid)] := by
  show ((db.comments ++ [_] ++ [_]).drop db.comments.length).map _ = _
  rw [List.append_assoc, List.drop_left]
  rfl

/-- A single parent comment at `"00/"` as a full database state. -/
def raceDb : CommentDb := ⟨oneTop, [], 2⟩

/-- Arguments for one concrete reply. -/
def plainArgs : CreateArgs := ⟨0, "s", "b", "h", none, none, none, 0, 50⟩

/-- C10 counterexample: two concurrent replies to the comment at `"00/"`
both compute `"00.00/"` and both rows are inserted, so the comment table
contains two comments of item 1 with identical thread paths — the claimed
uniqueness-with-retry contract does not hold on the code. -/
theorem C10_counterexample :
    ((race_create raceDb 1 1 plainArgs plainArgs).comments.map
        (fun c => (c.nid, c.thread)))
      = [(1, "00/"), (1, "00.00/"), (1, "00.00/")]
    ∧ ¬ (race_create raceDb 1 1 plainArgs plainArgs).comments.Pairwise
        (fun x y => ¬(x.nid = y.nid ∧ x.thread = y.thread)) := by
  refine ⟨by decide, by decide⟩

/-! ## Dynamic field engine (`src/models/node_field.rs`) -/

/-- Decimal value of a digit list. -/
def digitsVal (l : List Char) : Nat :=
  l.foldl (fun acc d => acc * 10 + (d.toNat - '0'.toNat)) 0

/-- Rust `str::parse::<i64>()`: optional single sign, then one or more ASCII
digits, with the result required to fit in a signed 64-bit integer;
anything else (including the empty string and whitespace) fails. -/
def rustParseI64 (s : String) : Option Int :=
  let signSplit : Bool × List Char :=
    match s.data with
    | '+' :: rest => (false, rest)
    | '-' :: rest => (true, rest)
    | l => (false, l)
  let neg := signSplit.1
  let ds := signSplit.2
  if ds.isEmpty then none
  else if !ds.all Char.isDigit then none
  else
    let n := digitsVal ds
    if neg then
      if n ≤ 2 ^ 63 then some (-(n : Int)) else none
    else
      if n ≤ 2 ^ 63 - 1 then some (n : Int) else none

/-- A parsed `f64`.  The numeric value of a finite parse is kept as the exact
rational of the decimal literal; IEEE-754 rounding (and overflow of huge
exponents to ±∞) is not modelled — no property verified here depends on the
rounded value, only on parse success/failure and on equality of values
parsed from identical input. -/
inductive F64 where
  | finite (q : ℚ)
  | inf (neg : Bool)
  | nan
deriving Repr, DecidableEq

/-- Rust `str::to_lowercase()` restricted to ASCII.  The source only compares
the lowercased string against the ASCII literal `"true"`, and no non-ASCII
character lowercases to any of `t`, `r`, `u`, `e`, so ASCII lowercasing is
observationally equivalent here. -/
def rustLowerAscii (s : String) : String :=
  ⟨s.data.map Char.toLower⟩

/-- Rust `str::parse::<f64>()` grammar:
`[+-]? ( inf | infinity | nan (case-insensitive) | Digits '.'? Digits? Exp? |
'.' Digits Exp? )` with `Exp ::= (e|E) [+-]? Digits`. -/
def rustParseF64 (s : String) : Option F64 :=
  let signSplit : Bool × List Char :=
    match s.data with
    | '+' :: rest => (false, rest)
    | '-' :: rest => (true, rest)
    | l => (false, l)
  let neg := signSplit.1
  let ds := signSplit.2
  let lows := ds.map Char.toLower
  if lows = "inf".data ∨ lows = "infinity".data then some (F64.inf neg)
  else if lows = "nan".data then some F64.nan
  else
    let intPart := ds.takeWhile Char.isDigit
    let rest1 := ds.dropWhile Char.isDigit
    let fracSplit : List Char × List Char × Bool :=
      match rest1 with
      | '.' :: r => (r.takeWhile Char.isDigit, r.dropWhile Char.isDigit, true)
      | r => ([], r, false)
    let fracPart := fracSplit.1
    let rest2 := fracSplit.2.1
    let hasDot := fracSplit.2.2
    if intPart.isEmpty && (!hasDot || fracPart.isEmpty) then none
    else
      let mantissa : ℚ :=
        (digitsVal intPart : ℚ) + (digitsVal fracPart : ℚ) / (10 : ℚ) ^ fracPart.length
      let signed : ℚ := if neg then -mantissa else mantissa
      match rest2 with
      | [] => some (F64.finite signed)
      | e :: r =>
        if e = 'e' ∨ e = 'E' then
          let expSplit : Bool × List Char :=
            match r with
            | '+' :: r2 => (false, r2)
            | '-' :: r2 => (true, r2)
            | r2 => (false, r2)
          let eneg := expSplit.1
          let eds := expSplit.2
          if eds.isEmpty || !eds.all Char.isDigit then none
          else
            let ev := digitsVal eds
            some (F64.finite (if eneg then signed / (10 : ℚ) ^ ev else signed * (10 : ℚ) ^ ev))
        else none

/-- A row of `node_field_data` (struct `NodeFieldData`); the auto-increment
`id` column is never read by the engine and is omitted. -/
structure FieldRow where
  nid : Nat
  vid : Nat
  field_name : String
  delta : Nat
  value_text : Option String
  value_int : Option Int
  value_float : Option F64
deriving Repr, DecidableEq

/-- One row of `NodeFieldInstance::with_field_info`, restricted to the
columns `save_field_values` reads (`field_name`, `field_type`,
`cardinality`). -/
structure FieldMeta where
  field_name : String
  field_type : String
  cardinality : Int
deriving Repr, DecidableEq

/-- `parse_field_value` (`src/models/node_field.rs:305-325`): dispatch on the
`field_type` string; integers and floats parse with `Option` results (a
failed parse leaves the slot `None`), booleans map `"1"` or lowercased
`"true"` to 1 and everything else to 0, and every other type stores the text
verbatim. -/
def parse_field_value (field_type value : String) :
    Option String × Option Int × Option F64 :=
  if field_type = "integer" ∨ field_type = "number_integer" then
    (none, rustParseI64 value, none)
  else if field_type = "decimal" ∨ field_type = "float" ∨ field_type = "number_decimal" then
    (none, none, rustParseF64 value)
  else if field_type = "boolean" ∨ field_type = "checkbox" then
    (none, some (if value = "1" ∨ rustLowerAscii value = "true" then 1 else 0), none)
  else
    (some value, none, none)

/-- The row `NodeFieldData::save` inserts for a parsed value. -/
def mkFieldRow (nid vid : Nat) (fname : String) (delta : Nat)
    (ftype value : String) : FieldRow :=
  { nid := nid, vid := vid, field_name := fname, delta := delta
    value_text := (parse_field_value ftype value).1
    value_int := (parse_field_value ftype value).2.1
    value_float := (parse_field_value ftype value).2.2 }

/-- The `ON DUPLICATE KEY` unique key of `node_field_data`:
`(nid, vid, field_name, delta)`. -/
def sameKey (x r : FieldRow) : Bool :=
  x.nid == r.nid && x.vid == r.vid && x.field_name == r.field_name && x.delta == r.delta

/-- `NodeFieldData::save`: `INSERT … ON DUPLICATE KEY UPDATE value_text =
…, value_int = …, value_float = …` — update the value columns of the
matching row when one exists, else append.  (In the `save_field_values`
flow a delete always precedes the inserts, so the update branch never
fires.) -/
def fdata_save (db : List FieldRow) (r : FieldRow) : List FieldRow :=
  if db.any (fun x => sameKey x r) then
    db.map (fun x =>
      if sameKey x r then
        { x with value_text := r.value_text, value_int := r.value_int,
                 value_float := r.value_float }
      else x)
  else db ++ [r]

/-- `NodeFieldData::delete_for_revision`: `DELETE FROM node_field_data WHERE
vid = ? AND field_name = ?`. -/
def fdata_delete_for_revision (db : List FieldRow) (vid : Nat)
    (field_name : String) : List FieldRow :=
  db.filter (fun r => !(r.vid == vid && r.field_name == field_name))

/-- `HashMap::get` on the submitted form data, modelled as first-match
lookup in an association list. -/
def formGet (form : List (String × String)) (k : String) : Option String :=
  (form.find? (fun p => p.1 == k)).map (fun p => p.2)

/-- The body of the `for delta in 0..10` loop of `save_field_values`. -/
def save_one_delta (nid vid : Nat) (f : FieldMeta) (form : List (String × String))
    (db : List FieldRow) (delta : Nat) : List FieldRow :=
  match formGet form ("field_" ++ f.field_name ++ "_" ++ toString delta) with
  | some v =>
    if v ≠ "" then fdata_save db (mkFieldRow nid vid f.field_name delta f.field_type v)
    else db
  | none => db

/-- The body of the per-field loop of `save_field_values`: delete all rows
of `(vid, field_name)`, then re-derive — key `field_{name}` for
single-cardinality fields, keys `field_{name}_{delta}` for `delta ∈ [0,10)`
otherwise, skipping empty values. -/
def save_one_field (nid vid : Nat) (f : FieldMeta) (form : List (String × String))
    (db : List FieldRow) : List FieldRow :=
  let db1 := fdata_delete_for_revision db vid f.field_name
  if f.cardinality = 1 then
    match formGet form ("field_" ++ f.field_name) with
    | some v =>
      if v ≠ "" then fdata_save db1 (mkFieldRow nid vid f.field_name 0 f.field_type v)
      else db1
    | none => db1
  else
    (List.range 10).foldl (save_one_delta nid vid f form) db1

/-- `save_field_values` (`src/models/node_field.rs:269-303`).  The `fields`
argument is the result of `NodeFieldInstance::with_field_info` for the
node type (a read of the schema tables, which these operations never
modify). -/
def save_field_values (db : List FieldRow) (fields : List FieldMeta)
    (nid vid : Nat) (form : List (String × String)) : List FieldRow :=
  fields.foldl (fun db f => save_one_field nid vid f form db) db

/-- The rows `save_field_values` derives for one field from the raw form
inputs (no database interaction). -/
def field_rows_for (f : FieldMeta) (nid vid : Nat)
    (form : List (String × String)) : List FieldRow :=
  if f.cardinality = 1 then
    match formGet form ("field_" ++ f.field_name) with
    | some v =>
      if v ≠ "" then [mkFieldRow nid vid f.field_name 0 f.field_type v] else []
    | none => []
  else
    (List.range 10).filterMap (fun delta =>
      match formGet form ("field_" ++ f.field_name ++ "_" ++ toString delta) with
      | some v =>
        if v ≠ "" then some (mkFieldRow nid vid f.field_name delta f.field_type v)
        else none
      | none => none)

/-- All rows derived from the raw inputs, in field order. -/
def derived_rows (fields : List FieldMeta) (nid vid : Nat)
    (form : List (String × String)) : List FieldRow :=
  match fields with
  | [] => []
  | f :: fs => field_rows_for f nid vid form ++ derived_rows fs nid vid form

/-- Removal of every row of the revision belonging to one of the named
fields. -/
def delete_all (db : List FieldRow) (vid : Nat) (names : List String) : List FieldRow :=
  db.filter (fun r => !(r.vid == vid && names.contains r.field_name))

theorem sameKey_true_iff {x r : FieldRow} :
    sameKey x r = true ↔
      x.nid = r.nid ∧ x.vid = r.vid ∧ x.field_name = r.field_name ∧ x.delta = r.delta := by
  simp [sameKey, and_assoc]

theorem fdata_save_append {db : List FieldRow} {r : FieldRow}
    (h : ∀ x ∈ db, sameKey x r = false) : fdata_save db r = db ++ [r] := by
  have hany : db.any (fun x => sameKey x r) = false :=
    List.any_eq_false.mpr (fun x hx => by rw [h x hx]; simp)
  simp [fdata_save, hany]

theorem mem_fdata_delete {db : List FieldRow} {vid : Nat} {n : String}
    {x : FieldRow} (hx : x ∈ fdata_delete_for_revision db vid n) :
    x ∈ db ∧ ¬(x.vid = vid ∧ x.field_name = n) := by
  have hm := List.mem_filter.mp hx
  refine ⟨hm.1, fun hcon => ?_⟩
  have h2 := hm.2
  rw [hcon.1, hcon.2] at h2
  simp at h2

theorem foldl_save_one_delta (nid vid : Nat) (f : FieldMeta)
    (form : List (String × String)) :
    ∀ (ds : List Nat), ds.Nodup →
    ∀ (db0 : List FieldRow),
      (∀ x ∈ db0, x.vid = vid → x.field_name = f.field_name → x.delta ∉ ds) →
      ds.foldl (save_one_delta nid vid f form) db0
        = db0 ++ ds.filterMap (fun delta =>
            match formGet form ("field_" ++ f.field_name ++ "_" ++ toString delta) with
            | some v =>
              if v ≠ "" then some (mkFieldRow nid vid f.field_name delta f.field_type v)
              else none
            | none => none) := by
  intro ds
  induction ds with
  | nil => intro _ db0 _; simp
  | cons d ds ih =>
    intro hnd db0 hdb
    have hd_notin : d ∉ ds := (List.nodup_cons.mp hnd).1
    have hnd' : ds.Nodup := (List.nodup_cons.mp hnd).2
    rw [List.foldl_cons, List.filterMap_cons]
    cases hv : formGet form ("field_" ++ f.field_name ++ "_" ++ toString d) with
    | none =>
      simp only [save_one_delta, hv]
      exact ih hnd' db0 (fun x hx h1 h2 => fun hin => hdb x hx h1 h2 (List.mem_cons_of_mem _ hin))
    | some v =>
      by_cases he : v ≠ ""
      · simp only [save_one_delta, hv, if_pos he]
        have hsave : fdata_save db0 (mkFieldRow nid vid f.field_name d f.field_type v)
            = db0 ++ [mkFieldRow nid vid f.field_name d f.field_type v] := by
          apply fdata_save_append
          intro x hx
          by_contra hkey
          have hkey' : sameKey x (mkFieldRow nid vid f.field_name d f.field_type v) = true := by
            cases hb : sameKey x (mkFieldRow nid vid f.field_name d f.field_type v) with
            | true => rfl
            | false => exact absurd hb hkey
          obtain ⟨_, h2, h3, h4⟩ := sameKey_true_iff.mp hkey'
          exact hdb x hx h2 h3 (h4 ▸ List.mem_cons_self d ds)
        rw [hsave]
        rw [ih hnd' _ (fun x hx h1 h2 => by
          rcases List.mem_append.mp hx with hx' | hx'
          · exact fun hin => hdb x hx' h1 h2 (List.mem_cons_of_mem _ hin)
          · have : x = mkFieldRow nid vid f.field_name d f.field_type v := by
              simpa using hx'
            subst this
            simpa using hd_notin)]
        simp
      · simp only [save_one_delta, hv, if_neg he]
        exact ih hnd' db0 (fun x hx h1 h2 => fun hin => hdb x hx h1 h2 (List.mem_cons_of_mem _ hin))

theorem save_one_field_eq (nid vid : Nat) (f : FieldMeta)
    (form : List (String × String)) (db : List FieldRow) :
    save_one_field nid vid f form db
      = fdata_delete_for_revision db vid f.field_name ++ field_rows_for f nid vid form := by
  have hclean : ∀ x ∈ fdata_delete_for_revision db vid f.field_name,
      ¬(x.vid = vid ∧ x.field_name = f.field_name) :=
    fun x hx => (mem_fdata_delete hx).2
  unfold save_one_field field_rows_for
  by_cases hc : f.cardinality = 1
  · simp only [if_pos hc]
    cases hv : formGet form ("field_" ++ f.field_name) with
    | none => simp
    | some v =>
      by_cases he : v ≠ ""
      · simp only [if_pos he]
        apply fdata_save_append
        intro x hx
        by_contra hkey
        have hkey' : sameKey x (mkFieldRow nid vid f.field_name 0 f.field_type v) = true := by
          cases hb : sameKey x (mkFieldRow nid vid f.field_name 0 f.field_type v) with
          | true => rfl
          | false => exact absurd hb hkey
        obtain ⟨_, h2, h3, _⟩ := sameKey_true_iff.mp hkey'
        exact hclean x hx ⟨h2, h3⟩
      · simp only [if_neg he, List.append_nil]
  · simp only [if_neg hc]
    exact foldl_save_one_delta nid vid f form (List.range 10) (List.nodup_range 10)
      _ (fun x hx h1 h2 => absurd ⟨h1, h2⟩ (hclean x hx))

theorem field_rows_for_mem {f : FieldMeta} {nid vid : Nat}
    {form : List (String × String)} {r : FieldRow}
    (h : r ∈ field_rows_for f nid vid form) :
    r.vid = vid ∧ r.field_name = f.field_name := by
  unfold field_rows_for at h
  by_cases hc : f.cardinality = 1
  · rw [if_pos hc] at h
    cases hv : formGet form ("field_" ++ f.field_name) with
    | none => rw [hv] at h; simp at h
    | some v =>
      rw [hv] at h
      replace h : r ∈ (if v ≠ "" then [mkFieldRow nid vid f.field_name 0 f.field_type v]
          else []) := h
      by_cases he : v ≠ ""
      · rw [if_pos he] at h
        have : r = mkFieldRow nid vid f.field_name 0 f.field_type v := by simpa using h
        subst this
        exact ⟨rfl, rfl⟩
      · rw [if_neg he] at h; simp at h
  · rw [if_neg hc] at h
    obtain ⟨d, _, hd⟩ := List.mem_filterMap.mp h
    cases hv : formGet form ("field_" ++ f.field_name ++ "_" ++ toString d) with
    | none => rw [hv] at hd; simp at hd
    | some v =>
      rw [hv] at hd
      replace hd : (if v ≠ "" then some (mkFieldRow nid vid f.field_name d f.field_type v)
          else none) = some r := hd
      by_cases he : v ≠ ""
      · rw [if_pos he] at hd
        have : r = mkFieldRow nid vid f.field_name d f.field_type v :=
          (Option.some_injective _ hd).symm
        subst this
        exact ⟨rfl, rfl⟩
      · rw [if_neg he] at hd; simp at hd

theorem derived_rows_mem {fields : List FieldMeta} {nid vid : Nat}
    {form : List (String × String)} {r : FieldRow}
    (h : r ∈ derived_rows fields nid vid form) :
    r.vid = vid ∧ r.field_name ∈ fields.map (fun f => f.field_name) := by
  induction fields with
  | nil => simp [derived_rows] at h
  | cons f fs ih =>
    rw [derived_rows] at h
    rcases List.mem_append.mp h with h' | h'
    · obtain ⟨h1, h2⟩ := field_rows_for_mem h'
      exact ⟨h1, by simp [h2]⟩
    · obtain ⟨h1, h2⟩ := ih h'
      exact ⟨h1, by simp [h2] ⟩

theorem delete_all_append (a b : List FieldRow) (vid : Nat) (ns : List String) :
    delete_all (a ++ b) vid ns = delete_all a vid ns ++ delete_all b vid ns :=
  List.filter_append _ _

theorem delete_all_of_disjoint (l : List FieldRow) (vid : Nat) (ns : List String)
    (h : ∀ r ∈ l, r.vid = vid → r.field_name ∉ ns) :
    delete_all l vid ns = l := by
  apply List.filter_eq_self.mpr
  intro r hr
  by_cases hv : r.vid = vid
  · simp only [hv]
    simp
    exact h r hr hv
  · have hb : (r.vid == vid) = false := by simpa using hv
    simp [hb]

theorem delete_all_nil_of_all (l : List FieldRow) (vid : Nat) (ns : List String)
    (h : ∀ r ∈ l, r.vid = vid ∧ r.field_name ∈ ns) :
    delete_all l vid ns = [] := by
  apply List.filter_eq_nil_iff.mpr
  intro r hr
  obtain ⟨h1, h2⟩ := h r hr
  simp [h1, h2]

theorem delete_all_delete_all (db : List FieldRow) (vid : Nat) (ns : List String) :
    delete_all (delete_all db vid ns) vid ns = delete_all db vid ns := by
  apply List.filter_eq_self.mpr
  intro r hr
  exact (List.mem_filter.mp hr).2

theorem fdata_delete_delete_all (db : List FieldRow) (vid : Nat) (n : String)
    (ns : List String) :
    delete_all (fdata_delete_for_revision db vid n) vid ns
      = delete_all db vid (n :: ns) := by
  unfold delete_all fdata_delete_for_revision
  rw [List.filter_filter]
  apply List.filter_congr
  intro r _
  by_cases hv : r.vid = vid
  · by_cases h1 : r.field_name = n
    · simp [hv, h1]
    · by_cases h2 : ns.contains r.field_name
      · simp [hv, h1, h2]
      · simp only [Bool.not_eq_true'] at h2
        simp [hv, h1, h2]
  · have hb : (r.vid == vid) = false := by simpa using hv
    simp [hb]

theorem save_field_values_eq (db : List FieldRow) (fields : List FieldMeta)
    (nid vid : Nat) (form : List (String × String))
    (h : (fields.map (fun f => f.field_name)).Nodup) :
    save_field_values db fields nid vid form
      = delete_all db vid (fields.map (fun f => f.field_name))
        ++ derived_rows fields nid vid form := by
  induction fields generalizing db with
  | nil =>
    show db = delete_all db vid [] ++ []
    rw [List.append_nil]
    exact (delete_all_of_disjoint db vid [] (fun r _ _ => by simp)).symm
  | cons f fs ih =>
    have h' : (f.field_name :: fs.map (fun f => f.field_name)).Nodup := h
    obtain ⟨hf0, hfs⟩ := List.nodup_cons.mp h'
    show save_field_values (save_one_field nid vid f form db) fs nid vid form = _
    rw [ih _ hfs, save_one_field_eq, delete_all_append,
      delete_all_of_disjoint (field_rows_for f nid vid form) vid
        (fs.map (fun f => f.field_name)) (fun r hr _ => by
          rw [(field_rows_for_mem hr).2]
          exact hf0),
      fdata_delete_delete_all]
    show _ = delete_all db vid (f.field_name :: fs.map (fun f => f.field_name))
      ++ (field_rows_for f nid vid form ++ derived_rows fs nid vid form)
    rw [List.append_assoc]

/-- C3: `save_field_values` has replacement semantics — it equals "delete
every row of `(revision, field)` for each field instance, then append the
rows derived from the raw inputs" (key `field_{name}`, resp.
`field_{name}_{delta}` for `delta ∈ [0,10)`, empty strings skipped — the
content of `derived_rows`); consequently saving twice leaves exactly the
second input set's values, with no stale deltas. -/
theorem C3_save_field_values :
    (∀ (db : List FieldRow) (fields : List FieldMeta) (nid vid : Nat)
        (form : List (String × String)),
        (fields.map (fun f => f.field_name)).Nodup →
        save_field_values db fields nid vid form
          = delete_all db vid (fields.map (fun f => f.field_name))
            ++ derived_rows fields nid vid form)
    ∧ (∀ (db : List FieldRow) (fields : List FieldMeta) (nid vid : Nat)
        (form₁ form₂ : List (String × String)),
        (fields.map (fun f => f.field_name)).Nodup →
        save_field_values (save_field_values db fields nid vid form₁) fields nid vid form₂
          = save_field_values db fields nid vid form₂) := by
  refine ⟨save_field_values_eq, ?_⟩
  intro db fields nid vid form₁ form₂ h
  rw [save_field_values_eq _ _ _ _ _ h, save_field_values_eq _ _ _ _ _ h,
    save_field_values_eq _ _ _ _ _ h, delete_all_append, delete_all_delete_all,
    delete_all_nil_of_all _ _ _ (fun r hr => derived_rows_mem hr),
    List.append_nil]

/-- Two concrete single- and multi-cardinality fields for the witness. -/
def twoFields : List FieldMeta :=
  [⟨"a", "text", 1⟩, ⟨"b", "integer", 3⟩]

/-- C3 witness: saving twice with different inputs equals saving the second
input set once, on a concrete schema and concrete forms. -/
theorem C3_save_field_values_witness :
    save_field_values (save_field_values [] twoFields 1 1
        [("field_a", "x"), ("field_b_0", "7"), ("field_b_1", "8")])
      twoFields 1 1 [("field_a", "y"), ("field_b_2", "9")]
      = save_field_values [] twoFields 1 1 [("field_a", "y"), ("field_b_2", "9")] :=
  C3_save_field_values.2 [] twoFields 1 1
    [("field_a", "x"), ("field_b_0", "7"), ("field_b_1", "8")]
    [("field_a", "y"), ("field_b_2", "9")] (by decide)

/-! ## C4: the type-coercion policy -/

/-- A schema with a single single-cardinality integer field. -/
def intFieldOnly : List FieldMeta := [⟨"n", "integer", 1⟩]

/-- C4 counterexample: for an integer field the non-empty unparsable input
`"abc"` does **not** drop the record — `save_field_values` still stores a
row, with all three value columns `NULL`. -/
theorem C4_counterexample :
    save_field_values [] intFieldOnly 1 1 [("field_n", "abc")]
      = [⟨1, 1, "n", 0, none, none, none⟩]
    ∧ save_field_values [] intFieldOnly 1 1 [("field_n", "abc")] ≠ [] := by
  refine ⟨by decide, by decide⟩

theorem save_single_field (name ftype v : String) (nid vid : Nat) (hv : v ≠ "") :
    save_field_values [] [⟨name, ftype, 1⟩] nid vid [("field_" ++ name, v)]
      = [mkFieldRow nid vid name 0 ftype v] := by
  show save_one_field nid vid ⟨name, ftype, 1⟩ [("field_" ++ name, v)] [] = _
  unfold save_one_field fdata_delete_for_revision
  have hget : formGet [("field_" ++ name, v)] ("field_" ++ name) = some v := by
    simp [formGet]
  simp [hget, hv, fdata_save]

/-- C4 (amended): the coercion policy per `value_kind`, as stored by
`save_field_values` for a non-empty input — an Integer field stores a row
whose `value_int` is the `i64` parse result (`NULL` when the parse fails:
the **value** is dropped but a row is still stored); a Float field likewise
with `value_float`; a Boolean field stores 1 for `"1"` or any case variant
of `"true"` and 0 otherwise, never dropping; a Text field stores the input
verbatim, never dropping.  `"abc"` fails both numeric parses. -/
theorem C4_coercion_amended :
    (∀ (name v : String) (nid vid : Nat), v ≠ "" →
        save_field_values [] [⟨name, "integer", 1⟩] nid vid [("field_" ++ name, v)]
          = [⟨nid, vid, name, 0, none, rustParseI64 v, none⟩])
    ∧ (∀ (name v : String) (nid vid : Nat), v ≠ "" →
        save_field_values [] [⟨name, "float", 1⟩] nid vid [("field_" ++ name, v)]
          = [⟨nid, vid, name, 0, none, none, rustParseF64 v⟩])
    ∧ (∀ (name v : String) (nid vid : Nat), v ≠ "" →
        save_field_values [] [⟨name, "boolean", 1⟩] nid vid [("field_" ++ name, v)]
          = [⟨nid, vid, name, 0, none,
              some (if v = "1" ∨ rustLowerAscii v = "true" then 1 else 0), none⟩])
    ∧ (∀ (name v : String) (nid vid : Nat), v ≠ "" →
        save_field_values [] [⟨name, "text", 1⟩] nid vid [("field_" ++ name, v)]
          = [⟨nid, vid, name, 0, some v, none, none⟩])
    ∧ rustParseI64 "abc" = none ∧ rustParseF64 "abc" = none := by
  refine ⟨?_, ?_, ?_, ?_, by decide, by decide⟩ <;>
    intro name v nid vid hv <;>
    rw [save_single_field name _ v nid vid hv] <;>
    simp [mkFieldRow, parse_field_value]

/-- C4 witness: the integer branch evaluated at the failing input `"abc"` —
a row is stored with `value_int = NULL`. -/
theorem C4_coercion_amended_witness :
    save_field_values [] [⟨"n", "integer", 1⟩] 1 1 [("field_n", "abc")]
      = [⟨1, 1, "n", 0, none, rustParseI64 "abc", none⟩] :=
  C4_coercion_amended.1 "n" "abc" 1 1 (by decide)

/-! ## Revision store (`src/models/node.rs`) -/

/-- A row of the `node` table (struct `Node`).  The `comment` mode column is
not named in `Node::create`'s INSERT; its schema default is modelled as 0
(`sql/schema.sql` is not under `src/`; no verified property reads the value
a create writes there). -/
structure NodeRow where
  nid : Nat
  vid : Nat
  node_type : String
  title : String
  uid : Nat
  status : Int
  created : Int
  changed : Int
  promote : Int
  sticky : Int
  comment : Int
deriving Repr, DecidableEq

/-- A row of `node_revisions` (struct `NodeRevision`); the `format` column is
not named in the INSERTs and keeps its schema default, modelled as 0. -/
structure RevisionRow where
  vid : Nat
  nid : Nat
  uid : Nat
  title : String
  body : Option String
  teaser : Option String
  timestamp : Int
  format : Int
deriving Repr, DecidableEq

/-- The state touched by the revision store: `node`, `node_revisions`,
`node_field_data`, and the two `AUTO_INCREMENT` counters. -/
structure NodeDb where
  nodes : List NodeRow
  node_revisions : List RevisionRow
  node_field_data : List FieldRow
  next_nid : Nat
  next_vid : Nat
deriving Repr, DecidableEq

/-- `Node::create` (`src/models/node.rs:105-155`): insert the `node` row
(status 1, `vid` left at its column default 0), insert the `node_revisions`
row, then `UPDATE node SET vid = ? WHERE nid = ?`.  Returns `(nid, vid)`. -/
def node_create (db : NodeDb) (node_type title body teaser : String) (uid : Nat)
    (promote sticky : Bool) (now : Int) : NodeDb × Nat × Nat :=
  let nid := db.next_nid
  let node : NodeRow :=
    ⟨nid, 0, node_type, title, uid, 1, now, now,
     if promote then 1 else 0, if sticky then 1 else 0, 0⟩
  let vid := db.next_vid
  let rev : RevisionRow := ⟨vid, nid, uid, title, some body, some teaser, now, 0⟩
  let nodes2 := (db.nodes ++ [node]).map
    (fun n => if n.nid == nid then { n with vid := vid } else n)
  (⟨nodes2, db.node_revisions ++ [rev], db.node_field_data, nid + 1, vid + 1⟩, nid, vid)

/-- `Node::update` (`src/models/node.rs:157-200`): `UPDATE node SET title,
changed, promote, sticky WHERE nid`; insert a fresh `node_revisions` row;
`UPDATE node SET vid WHERE nid`.  Returns the new `vid`. -/
def node_update (db : NodeDb) (nid : Nat) (title body teaser : String) (uid : Nat)
    (promote sticky : Bool) (now : Int) : NodeDb × Nat :=
  let nodes1 := db.nodes.map
    (fun n => if n.nid == nid then
        { n with title := title, changed := now,
                 promote := if promote then 1 else 0,
                 sticky := if sticky then 1 else 0 }
      else n)
  let vid := db.next_vid
  let rev : RevisionRow := ⟨vid, nid, uid, title, some body, some teaser, now, 0⟩
  let nodes2 := nodes1.map (fun n => if n.nid == nid then { n with vid := vid } else n)
  (⟨nodes2, db.node_revisions ++ [rev], db.node_field_data, db.next_nid, vid + 1⟩, vid)

/-- `ORDER BY field_name, delta` comparison for `for_revision`. -/
def fieldRowLe (a b : FieldRow) : Bool :=
  strLtB a.field_name b.field_name
    || (a.field_name == b.field_name && a.delta ≤ b.delta)

/-- Insertion into a sorted list. -/
def insSorted {α : Type} (le : α → α → Bool) (x : α) : List α → List α
  | [] => [x]
  | y :: t => if le x y then x :: y :: t else y :: insSorted le x t

/-- Insertion sort (the meaning of the SQL `ORDER BY`). -/
def insSort {α : Type} (le : α → α → Bool) : List α → List α
  | [] => []
  | x :: t => insSorted le x (insSort le t)

/-- `NodeFieldData::for_revision`: `SELECT * FROM node_field_data WHERE
vid = ? ORDER BY field_name, delta`. -/
def for_revision (fdata : List FieldRow) (vid : Nat) : List FieldRow :=
  insSort fieldRowLe (fdata.filter (fun r => r.vid == vid))

theorem map_noop_of_ne (l : List NodeRow) (nid : Nat) (g : NodeRow → NodeRow)
    (hl : ∀ n ∈ l, n.nid ≠ nid) :
    l.map (fun n => if n.nid == nid then g n else n) = l := by
  induction l with
  | nil => rfl
  | cons x t ih =>
    have hx : (x.nid == nid) = false := by
      simpa using hl x (List.mem_cons_self x t)
    rw [List.map_cons, hx]
    show x :: t.map _ = x :: t
    rw [ih (fun n hn => hl n (List.mem_cons_of_mem _ hn))]

theorem map_upd_append (l : List NodeRow) (x : NodeRow) (nid : Nat)
    (g : NodeRow → NodeRow) (hl : ∀ n ∈ l, n.nid ≠ nid) (hx : x.nid = nid) :
    (l ++ [x]).map (fun n => if n.nid == nid then g n else n) = l ++ [g x] := by
  rw [List.map_append, map_noop_of_ne l nid g hl]
  simp [hx]

theorem find_nid_append (l : List NodeRow) (x : NodeRow) (nid : Nat)
    (hl : ∀ n ∈ l, n.nid ≠ nid) (hx : x.nid = nid) :
    (l ++ [x]).find? (fun n => n.nid == nid) = some x := by
  rw [find?_append_none _ _ (List.find?_eq_none.mpr (fun n hn => by
    simpa using hl n hn))]
  have : (x.nid == nid) = true := by simpa using hx
  simp [List.find?_cons, this]

theorem filter_map_invariant {α : Type} (p : α → Bool) (g : α → α) (l : List α)
    (hp : ∀ x, p (g x) = p x) (hg : ∀ x, p x = true → g x = x) :
    (l.map g).filter p = l.filter p := by
  induction l with
  | nil => rfl
  | cons x t ih =>
    rw [List.map_cons, List.filter_cons, List.filter_cons]
    cases hx : p x with
    | true =>
      rw [hg x hx, hx, ih]
    | false =>
      have hgx := hp x
      rw [hx] at hgx
      rw [hgx, ih]
      simp

theorem filter_vid_fdata_save (db : List FieldRow) (r : FieldRow) (w : Nat)
    (hw : r.vid ≠ w) :
    (fdata_save db r).filter (fun x => x.vid == w) = db.filter (fun x => x.vid == w) := by
  unfold fdata_save
  by_cases h : db.any (fun x => sameKey x r)
  · rw [if_pos h]
    apply filter_map_invariant
    · intro x
      by_cases hk : sameKey x r = true
      · rw [if_pos hk]
      · rw [if_neg hk]
    · intro x hx
      have hfalse : sameKey x r = false := by
        cases hb : sameKey x r with
        | false => rfl
        | true =>
          have hv := (sameKey_true_iff.mp hb).2.1
          have hxw : x.vid = w := by simpa using hx
          rw [hv] at hxw
          exact absurd hxw hw
      simp [hfalse]
  · rw [if_neg h, List.filter_append]
    have hr : (r.vid == w) = false := by simpa using hw
    simp [List.filter_cons, hr]

theorem filter_vid_save_one_delta (nid v : Nat) (f : FieldMeta)
    (form : List (String × String)) (w : Nat) (hw : w ≠ v) :
    ∀ (db : List FieldRow) (d : Nat),
      (save_one_delta nid v f form db d).filter (fun x => x.vid == w)
        = db.filter (fun x => x.vid == w) := by
  intro db d
  unfold save_one_delta
  cases formGet form ("field_" ++ f.field_name ++ "_" ++ toString d) with
  | none => rfl
  | some val =>
    by_cases he : val ≠ ""
    · simp only [if_pos he]
      exact filter_vid_fdata_save db _ w (fun hh => hw (by rw [← hh]; rfl))
    · simp only [if_neg he]

theorem filter_vid_save_one_field (nid v : Nat) (f : FieldMeta)
    (form : List (String × String)) (w : Nat) (hw : w ≠ v) (db : List FieldRow) :
    (save_one_field nid v f form db).filter (fun x => x.vid == w)
      = db.filter (fun x => x.vid == w) := by
  have hdel : (fdata_delete_for_revision db v f.field_name).filter (fun x => x.vid == w)
      = db.filter (fun x => x.vid == w) := by
    unfold fdata_delete_for_revision
    rw [List.filter_filter]
    apply List.filter_congr
    intro r _
    by_cases hr : r.vid = w
    · have h1 : (r.vid == w) = true := by simpa using hr
      have h2 : (r.vid == v) = false := by
        simp only [beq_eq_false_iff_ne, ne_eq]
        rw [hr]
        exact fun hh => hw hh
      simp [h1, h2]
    · have h1 : (r.vid == w) = false := by simpa using hr
      simp [h1]
  unfold save_one_field
  by_cases hc : f.cardinality = 1
  · simp only [if_pos hc]
    cases formGet form ("field_" ++ f.field_name) with
    | none => exact hdel
    | some val =>
      by_cases he : val ≠ ""
      · simp only [if_pos he]
        rw [filter_vid_fdata_save _ _ w (fun hh => hw (by rw [← hh]; rfl))]
        exact hdel
      · simp only [if_neg he]
        exact hdel
  · simp only [if_neg hc]
    have : ∀ (ds : List Nat) (db0 : List FieldRow),
        (ds.foldl (save_one_delta nid v f form) db0).filter (fun x => x.vid == w)
          = db0.filter (fun x => x.vid == w) := by
      intro ds
      induction ds with
      | nil => intro db0; rfl
      | cons d t ih =>
        intro db0
        rw [List.foldl_cons, ih, filter_vid_save_one_delta nid v f form w hw db0 d]
    rw [this (List.range 10) _]
    exact hdel

/-- Saving field values against revision `v` leaves the rows of every other
revision `w ≠ v` untouched. -/
theorem filter_vid_save_field_values (db : List FieldRow) (fields : List FieldMeta)
    (nid v : Nat) (form : List (String × String)) (w : Nat) (hw : w ≠ v) :
    (save_field_values db fields nid v form).filter (fun x => x.vid == w)
      = db.filter (fun x => x.vid == w) := by
  induction fields generalizing db with
  | nil => rfl
  | cons f fs ih =>
    show ((save_field_values (save_one_field nid v f form db) fs nid v form)).filter _ = _
    rw [ih (save_one_field nid v f form db), filter_vid_save_one_field nid v f form w hw db]

/-- C9: `Node::update` always inserts a new revision and repoints the head,
never mutating an existing revision: create followed by two updates yields
three distinct revision ids, leaves the node's `vid` at the third, appends
exactly three revision rows to the untouched prior `node_revisions`
contents, and field values saved against the third revision leave the rows
loaded for the first revision unchanged. -/
theorem C9_revisioning :
    ∀ (db : NodeDb) (ty t0 b0 e0 t1 b1 e1 t2 b2 e2 : String)
      (u0 u1 u2 : Nat) (p0 s0 p1 s1 p2 s2 : Bool) (n0 n1 n2 : Int),
      (∀ n ∈ db.nodes, n.nid < db.next_nid) →
      (let r1 := node_create db ty t0 b0 e0 u0 p0 s0 n0
       let db1 := r1.1
       let nid := r1.2.1
       let v1 := r1.2.2
       let r2 := node_update db1 nid t1 b1 e1 u1 p1 s1 n1
       let db2 := r2.1
       let v2 := r2.2
       let r3 := node_update db2 nid t2 b2 e2 u2 p2 s2 n2
       let db3 := r3.1
       let v3 := r3.2
       (v1 ≠ v2 ∧ v1 ≠ v3 ∧ v2 ≠ v3)
       ∧ (db3.nodes.find? (fun n => n.nid == nid)).map (fun n => n.vid) = some v3
       ∧ db3.node_revisions = db.node_revisions
           ++ [⟨v1, nid, u0, t0, some b0, some e0, n0, 0⟩,
               ⟨v2, nid, u1, t1, some b1, some e1, n1, 0⟩,
               ⟨v3, nid, u2, t2, some b2, some e2, n2, 0⟩]
       ∧ ∀ (fields : List FieldMeta) (form : List (String × String)),
           for_revision (save_field_values db3.node_field_data fields nid v3 form) v1
             = for_revision db3.node_field_data v1) := by
  intro db ty t0 b0 e0 t1 b1 e1 t2 b2 e2 u0 u1 u2 p0 s0 p1 s1 p2 s2 n0 n1 n2 hwf
  intro r1 db1 nid v1 r2 db2 v2 r3 db3 v3
  have hold : ∀ n ∈ db.nodes, n.nid ≠ db.next_nid := fun n hn => Nat.ne_of_lt (hwf n hn)
  have hnid : nid = db.next_nid := rfl
  have hv1 : v1 = db.next_vid := rfl
  have hv2 : v2 = db.next_vid + 1 := rfl
  have hv3 : v3 = db.next_vid + 2 := rfl
  refine ⟨⟨?_, ?_, ?_⟩, ?_, ?_, ?_⟩
  · rw [hv1, hv2]; omega
  · rw [hv1, hv3]; omega
  · rw [hv2, hv3]; omega
  · -- head pointer after the second update
    have e1 : db1.nodes = db.nodes
        ++ [⟨db.next_nid, db.next_vid, ty, t0, u0, 1, n0, n0,
             if p0 then 1 else 0, if s0 then 1 else 0, 0⟩] :=
      map_upd_append db.nodes _ db.next_nid _ hold rfl
    have e2 : db2.nodes = db.nodes
        ++ [⟨db.next_nid, db.next_vid + 1, ty, t1, u0, 1, n0, n1,
             if p1 then 1 else 0, if s1 then 1 else 0, 0⟩] := by
      have estep : db2.nodes
          = (db1.nodes.map (fun n => if n.nid == nid then
              { n with title := t1, changed := n1,
                       promote := if p1 then 1 else 0,
                       sticky := if s1 then 1 else 0 }
            else n)).map (fun n => if n.nid == nid then { n with vid := db.next_vid + 1 }
            else n) := rfl
      rw [estep, e1, hnid,
        map_upd_append db.nodes _ db.next_nid _ hold rfl,
        map_upd_append db.nodes _ db.next_nid _ hold rfl]
    have e3 : db3.nodes = db.nodes
        ++ [⟨db.next_nid, db.next_vid + 2, ty, t2, u0, 1, n0, n2,
             if p2 then 1 else 0, if s2 then 1 else 0, 0⟩] := by
      have estep : db3.nodes
          = (db2.nodes.map (fun n => if n.nid == nid then
              { n with title := t2, changed := n2,
                       promote := if p2 then 1 else 0,
                       sticky := if s2 then 1 else 0 }
            else n)).map (fun n => if n.nid == nid then { n with vid := db.next_vid + 2 }
            else n) := rfl
      rw [estep, e2, hnid,
        map_upd_append db.nodes _ db.next_nid _ hold rfl,
        map_upd_append db.nodes _ db.next_nid _ hold rfl]
    rw [e3, hnid, find_nid_append db.nodes _ db.next_nid hold rfl, hv3]
    rfl
  · -- revisions are append-only
    show ((db.node_revisions
        ++ [⟨db.next_vid, db.next_nid, u0, t0, some b0, some e0, n0, 0⟩])
        ++ [⟨db.next_vid + 1, db.next_nid, u1, t1, some b1, some e1, n1, 0⟩])
        ++ [⟨db.next_vid + 2, db.next_nid, u2, t2, some b2, some e2, n2, 0⟩]
      = db.node_revisions
        ++ [⟨db.next_vid, db.next_nid, u0, t0, some b0, some e0, n0, 0⟩,
            ⟨db.next_vid + 1, db.next_nid, u1, t1, some b1, some e1, n1, 0⟩,
            ⟨db.next_vid + 2, db.next_nid, u2, t2, some b2, some e2, n2, 0⟩]
    simp
  · intro fields form
    unfold for_revision
    rw [filter_vid_save_field_values db3.node_field_data fields nid v3 form v1
      (by rw [hv1, hv3]; omega)]

/-- The initial empty database of the revision store. -/
def emptyNodeDb : NodeDb := ⟨[], [], [], 1, 1⟩

/-- C9 witness: the revisioning property evaluated from the empty store. -/
theorem C9_revisioning_witness :
    (let r1 := node_create emptyNodeDb "page" "t0" "b0" "e0" 1 false false 10
     let db1 := r1.1
     let nid := r1.2.1
     let v1 := r1.2.2
     let r2 := node_update db1 nid "t1" "b1" "e1" 1 true false 11
     let db2 := r2.1
     let v2 := r2.2
     let r3 := node_update db2 nid "t2" "b2" "e2" 2 false true 12
     let db3 := r3.1
     let v3 := r3.2
     (v1 ≠ v2 ∧ v1 ≠ v3 ∧ v2 ≠ v3)
     ∧ (db3.nodes.find? (fun n => n.nid == nid)).map (fun n => n.vid) = some v3
     ∧ db3.node_revisions = emptyNodeDb.node_revisions
         ++ [⟨v1, nid, 1, "t0", some "b0", some "e0", 10, 0⟩,
             ⟨v2, nid, 1, "t1", some "b1", some "e1", 11, 0⟩,
             ⟨v3, nid, 2, "t2", some "b2", some "e2", 12, 0⟩]
     ∧ ∀ (fields : List FieldMeta) (form : List (String × String)),
         for_revision (save_field_values db3.node_field_data fields nid v3 form) v1
           = for_revision db3.node_field_data v1) :=
  C9_revisioning emptyNodeDb "page" "t0" "b0" "e0" "t1" "b1" "e1" "t2" "b2" "e2"
    1 1 2 false false true false false true 10 11 12 (by simp [emptyNodeDb])

/-! ## C7: `truncate_subject` (`src/handlers/comment.rs:484-491`) -/

/-- Rust `char::is_whitespace`: the Unicode `White_Space` code points. -/
def rustIsWhitespace (c : Char) : Bool :=
  decide (c.toNat ∈ ([0x9, 0xA, 0xB, 0xC, 0xD, 0x20, 0x85, 0xA0, 0x1680] : List Nat))
    || (decide (0x2000 ≤ c.toNat) && decide (c.toNat ≤ 0x200A))
    || decide (c.toNat ∈ ([0x2028, 0x2029, 0x202F, 0x205F, 0x3000] : List Nat))

/-- Rust `str::trim()`: strip Unicode whitespace from both ends. -/
def rustTrim (s : String) : String :=
  ⟨((s.data.dropWhile rustIsWhitespace).reverse.dropWhile rustIsWhitespace).reverse⟩

/-- UTF-8 byte width of a scalar value. -/
def charUtf8Size (c : Char) : Nat :=
  if c.toNat < 0x80 then 1
  else if c.toNat < 0x800 then 2
  else if c.toNat < 0x10000 then 3
  else 4

/-- Rust `str::len()`: the UTF-8 byte length. -/
def utf8Len (l : List Char) : Nat :=
  (l.map charUtf8Size).sum

/-- Rust byte slicing `&s[..k]`: `none` models the panic that is raised when
`k` is not a character boundary (or exceeds the length). -/
def sliceBytes : List Char → Nat → Option (List Char)
  | _, 0 => some []
  | [], _ + 1 => none
  | c :: rest, k + 1 =>
    if charUtf8Size c ≤ k + 1 then
      (sliceBytes rest (k + 1 - charUtf8Size c)).map (fun l => c :: l)
    else none

/-- `truncate_subject`: trim, then return the text unchanged when
`clean.len() <= 60` — a **byte** count — and otherwise append `"..."` to
the byte slice `&clean[..57]`; `none` models the byte-boundary panic. -/
def truncate_subject (text : String) : Option String :=
  let clean := rustTrim text
  if utf8Len clean.data ≤ 60 then some clean
  else (sliceBytes clean.data 57).map (fun l => (⟨l⟩ : String) ++ "...")

/-- C7: the truncation limit is counted in bytes, and the byte slice panics
on multi-byte input: 61 copies of `'é'` (122 bytes) panic because byte 57
falls inside a character; 31 copies (62 bytes — only 31 characters, which
the claim says must be returned unchanged) also panic; plain ASCII of 61
characters truncates to 57 characters plus `"..."`. -/
theorem C7_truncate_subject_bug :
    truncate_subject ⟨List.replicate 61 'é'⟩ = none
    ∧ truncate_subject ⟨List.replicate 31 'é'⟩ = none
    ∧ truncate_subject ⟨List.replicate 61 'a'⟩
        = some ((⟨List.replicate 57 'a'⟩ : String) ++ "...") := by
  refine ⟨by decide, by decide, by decide⟩

/-! ## C8: comment-mode validation in the submit handlers
(`src/handlers/comment.rs`, `add_submit` / `reply_submit`) -/

/-- `AppError` (`src/error.rs`); the message payloads of `Database`,
`Template`, `BadRequest` and `Internal` are elided — no handler modelled
here inspects them. -/
inductive AppError where
  | Database
  | Template
  | NotFound
  | Unauthorized
  | Forbidden
  | BadRequest
  | Internal
deriving Repr, DecidableEq

/-- `CommentForm` (`src/handlers/comment.rs:20-27`). -/
structure CommentForm where
  subject : String
  comment : String
  name : Option String
  mail : Option String
  homepage : Option String
deriving Repr, DecidableEq

/-- How a submit handler run ends after its guard checks: re-render the form
with a validation message, or proceed to `Comment::create` with the given
parent id and status. -/
inductive SubmitDecision where
  | rerender (msg : String)
  | proceed (pid : Nat) (status : Int)
deriving Repr, DecidableEq

def COMMENT_PUBLISHED : Int := 0

def COMMENT_NOT_PUBLISHED : Int := 1

def COMMENT_NODE_DISABLED : Int := 0

def COMMENT_NODE_READ_ONLY : Int := 1

def COMMENT_NODE_READ_WRITE : Int := 2

/-- Whether the anonymous-name validation fires:
`form.name.as_ref().map(|n| n.trim().is_empty()).unwrap_or(true)`. -/
def nameBlank (form : CommentForm) : Bool :=
  match form.name with
  | some n => rustTrim n == ""
  | none => true

/-- `add_submit` (`src/handlers/comment.rs:63-140`) up to the decision to
call `Comment::create` (with `pid = 0`).  `node?` is the result of
`Node::find_with_body`; `can_post` / `can_post_without_approval` are the
results of the permission queries; `logged_in` is `current_user.is_some()`.
The subject derivation and the insert itself are modelled separately
(`truncate_subject`, `comment_create`). -/
def add_submit (node? : Option NodeRow) (can_post can_post_without_approval : Bool)
    (logged_in : Bool) (form : CommentForm) : Except AppError SubmitDecision :=
  match node? with
  | none => .error .NotFound
  | some node =>
    if node.comment ≠ COMMENT_NODE_READ_WRITE then .error .Forbidden
    else if !can_post then .error .Forbidden
    else if rustTrim form.comment = "" then .ok (.rerender "Comment body is required")
    else if !logged_in && nameBlank form then .ok (.rerender "Your name is required")
    else .ok (.proceed 0
      (if can_post_without_approval then COMMENT_PUBLISHED else COMMENT_NOT_PUBLISHED))

/-- `reply_submit` (`src/handlers/comment.rs:180-262`) up to the decision to
call `Comment::create` (with `pid = parent.cid`).  `parent?` is the result
of `Comment::find_by_cid`; `nodeOf` is the `Node::find_with_body` lookup of
the parent's item. -/
def reply_submit (parent? : Option CommentRow) (nodeOf : Nat → Option NodeRow)
    (can_post can_post_without_approval logged_in : Bool) (form : CommentForm) :
    Except AppError SubmitDecision :=
  match parent? with
  | none => .error .NotFound
  | some parent =>
    match nodeOf parent.nid with
    | none => .error .NotFound
    | some node =>
      if node.comment ≠ COMMENT_NODE_READ_WRITE then .error .Forbidden
      else if !can_post then .error .Forbidden
      else if rustTrim form.comment = "" then .ok (.rerender "Comment body is required")
      else if !logged_in && nameBlank form then .ok (.rerender "Your name is required")
      else .ok (.proceed parent.cid
        (if can_post_without_approval then COMMENT_PUBLISHED else COMMENT_NOT_PUBLISHED))

/-- A node whose comment mode is `ReadOnly`. -/
def roNode : NodeRow := ⟨1, 1, "page", "t", 1, 1, 0, 0, 0, 0, COMMENT_NODE_READ_ONLY⟩

/-- A valid form with a non-empty body. -/
def plainForm : CommentForm := ⟨"s", "body", none, none, none⟩

/-- C8 counterexample: a top-level comment on a `ReadOnly` item is rejected
with `Forbidden` even for a logged-in user with every permission — the
claim says it would be accepted. -/
theorem C8_counterexample :
    add_submit (some roNode) true true true plainForm = .error .Forbidden := by
  rfl

/-- C8 (amended): both submit handlers validate the item's comment mode
before inserting, rejecting with `Forbidden` **unless the mode is
`ReadWrite`** — so `Disabled` and `ReadOnly` both reject every comment,
top-level ones included; under `ReadWrite` both top-level comments and
replies proceed to the insert (given posting permission and a non-empty
body). -/
theorem C8_comment_mode_amended :
    (∀ (node : NodeRow) (cp ca li : Bool) (form : CommentForm),
        node.comment ≠ COMMENT_NODE_READ_WRITE →
        add_submit (some node) cp ca li form = .error .Forbidden)
    ∧ (∀ (parent : CommentRow) (nodeOf : Nat → Option NodeRow) (node : NodeRow)
        (cp ca li : Bool) (form : CommentForm),
        nodeOf parent.nid = some node →
        node.comment ≠ COMMENT_NODE_READ_WRITE →
        reply_submit (some parent) nodeOf cp ca li form = .error .Forbidden)
    ∧ (∀ (node : NodeRow) (form : CommentForm),
        node.comment = COMMENT_NODE_READ_WRITE →
        rustTrim form.comment ≠ "" →
        add_submit (some node) true true true form
          = .ok (.proceed 0 COMMENT_PUBLISHED))
    ∧ (∀ (parent : CommentRow) (nodeOf : Nat → Option NodeRow) (node : NodeRow)
        (form : CommentForm),
        nodeOf parent.nid = some node →
        node.comment = COMMENT_NODE_READ_WRITE →
        rustTrim form.comment ≠ "" →
        reply_submit (some parent) nodeOf true true true form
          = .ok (.proceed parent.cid COMMENT_PUBLISHED)) := by
  refine ⟨?_, ?_, ?_, ?_⟩
  · intro node cp ca li form hmode
    show (if node.comment ≠ COMMENT_NODE_READ_WRITE then _ else _) = _
    rw [if_pos hmode]
  · intro parent nodeOf node cp ca li form hfind hmode
    show (match nodeOf parent.nid with
      | none => Except.error AppError.NotFound
      | some node => _) = _
    rw [hfind]
    show (if node.comment ≠ COMMENT_NODE_READ_WRITE then _ else _) = _
    rw [if_pos hmode]
  · intro node form hmode hbody
    show (if node.comment ≠ COMMENT_NODE_READ_WRITE then _ else _) = _
    rw [if_neg (not_not_intro hmode)]
    simp [hbody]
  · intro parent nodeOf node form hfind hmode hbody
    show (match nodeOf parent.nid with
      | none => Except.error AppError.NotFound
      | some node => _) = _
    rw [hfind]
    show (if node.comment ≠ COMMENT_NODE_READ_WRITE then _ else _) = _
    rw [if_neg (not_not_intro hmode)]
    simp [hbody]

/-- A node whose comment mode is `ReadWrite`. -/
def rwNode : NodeRow := ⟨1, 1, "page", "t", 1, 1, 0, 0, 0, 0, COMMENT_NODE_READ_WRITE⟩

/-- C8 witness: under `ReadWrite` a top-level comment proceeds to the
insert as `Published` for a fully permitted user. -/
theorem C8_comment_mode_amended_witness :
    add_submit (some rwNode) true true true plainForm
      = .ok (.proceed 0 COMMENT_PUBLISHED) :=
  C8_comment_mode_amended.2.2.1 rwNode plainForm (by rfl) (by decide)

end DrupalRust
